import Mathlib

/-
Verification of the BER TLV decoder in stockholm/asn1/ber_decoder.py.

The byte buffer is modelled as a `List Nat` whose elements are the byte
values (0..255).  Python operations that can raise on a too-short buffer
(indexing, and `ord` applied to an empty slice) are modelled with `Option`;
Python slices, which silently truncate, are modelled with `List.drop` /
`List.take`.  All integer arithmetic in the source is non-negative except
`extra_data_length`, which the source computes as a difference that can go
negative, so that field is an `Int`.
-/

namespace Stockholm

/-- Translation of `tag_type_decode`: the constructed flag is bit 6 (mask
0x20 = 32) of the first octet; `ord(byte_string[0])` raises on an empty
string, hence the `Option`. -/
def tag_type_decode : List Nat → Option Nat
  | [] => none
  | first_octet :: _ => some (if first_octet &&& 32 = 32 then 1 else 0)

/-- Translation of the reading loop of `lvq_decode`: collect `b & 0x7f` for
each octet until one with a clear high bit is found; running off the end of
the buffer corresponds to `ord('')` raising in Python. -/
def lvq_values : List Nat → Option (List Nat)
  | [] => none
  | b :: rest =>
    if b &&& 128 = 0 then some [b &&& 127]
    else (lvq_values rest).map (fun vs => (b &&& 127) :: vs)

/-- Translation of `lvq_decode`.  In the source, the result loop reads
`i << shift`, `result |= i`, `shift - 7`: the first and third statements
discard their values, so the accumulated result is the plain bitwise or of
the 7-bit groups, with no shifting.  The returned size is the number of
octets consumed. -/
def lvq_decode (byte_string : List Nat) : Option (Nat × Nat) :=
  (lvq_values byte_string).map (fun vs => (vs.foldl (fun r i => r ||| i) 0, vs.length))

/-- Translation of `tag_identifier_decode`: low 5 bits all set selects the
long (base-128) form read from the remaining octets, otherwise the tag
number is `first_octet - (first_octet & 224)`; the identifier octet count
includes the first octet. -/
def tag_identifier_decode : List Nat → Option (Nat × Nat)
  | [] => none
  | first_octet :: rest =>
    if first_octet &&& 31 = 31 then
      (lvq_decode rest).map (fun p => (p.1, p.2 + 1))
    else
      some (first_octet - (first_octet &&& 224), 1)

/-- Translation of the loop of `long_format_length_decode`: `shift` starts
at `8 * (len - 1)` and decreases by 8 per octet, each octet being or-ed in
at the current shift. -/
def long_format_length_go : List Nat → Nat → Nat → Nat
  | [], _, length => length
  | b :: rest, shift, length => long_format_length_go rest (shift - 8) (length ||| (b <<< shift))

/-- Translation of `long_format_length_decode`. -/
def long_format_length_decode (byte_string : List Nat) : Nat :=
  long_format_length_go byte_string (8 * (byte_string.length - 1)) 0

/-- Translation of `get_bit`. -/
def get_bit (number index : Nat) : Nat :=
  if number &&& (1 <<< index) ≠ 0 then 1 else 0

/-- Fields of the `Header` class after `__init__` has run (which always
calls `length_decode`). -/
structure Header where
  type : Nat
  number : Nat
  identifier_octets : Nat
  octets : Nat
  length_octets : Nat
  data_length : Nat
  total_octets : Nat
  extra_data_length : Int
  deriving DecidableEq

/-- Translation of `Header.__init__` together with `Header.length_decode`:
decode the tag type and identifier, then read the first length octet at
index `identifier_octets` (Python indexing, raising when out of range) and
branch on indefinite (exactly 0x80), long (high bit set) or short form.
The long-form slice `byte_string[index:index+k]` silently truncates like a
Python slice. -/
def Header.decode (byte_string : List Nat) : Option Header :=
  match tag_type_decode byte_string, tag_identifier_decode byte_string with
  | some type, some (number, identifier_octets) =>
    match byte_string[identifier_octets]? with
    | none => none
    | some first_octet =>
      if first_octet = 128 then
        some { type := type, number := number,
               identifier_octets := identifier_octets,
               length_octets := 1, octets := identifier_octets + 1,
               data_length := 0, total_octets := identifier_octets + 1,
               extra_data_length := (byte_string.length : Int) - (identifier_octets + 1) }
      else if first_octet &&& 128 = 128 then
        some { type := type, number := number,
               identifier_octets := identifier_octets,
               length_octets := 1 + (first_octet - 128),
               octets := identifier_octets + (1 + (first_octet - 128)),
               data_length :=
                 long_format_length_decode
                   ((byte_string.drop (identifier_octets + 1)).take (first_octet - 128)),
               total_octets :=
                 identifier_octets + (1 + (first_octet - 128)) +
                   long_format_length_decode
                     ((byte_string.drop (identifier_octets + 1)).take (first_octet - 128)),
               extra_data_length := 0 }
      else
        some { type := type, number := number,
               identifier_octets := identifier_octets,
               length_octets := 1, octets := identifier_octets + 1,
               data_length := first_octet,
               total_octets := identifier_octets + 1 + first_octet,
               extra_data_length :=
                 (byte_string.length : Int) - (identifier_octets + 1) - first_octet }
  | _, _ => none

/-- Value stored in a `Tag`: `None` before decoding, a hex string for a
primitive tag, the raw byte slice for a constructed tag. -/
inductive TagValue where
  | null
  | interpreted (s : String)
  | raw (bytes : List Nat)
  deriving DecidableEq

/-- Lowercase hexadecimal digit, as produced by Python's hex encoding. -/
def hexChar (n : Nat) : Char :=
  if n < 10 then Char.ofNat (48 + n) else Char.ofNat (87 + n)

/-- Decoded TLV unit: the fields of the `Tag` class after `decode` has run
on a byte string (with the default `load_value=True` and no preset
header). -/
structure Tag where
  header : Header
  value : TagValue
  nested_tags : List Tag
  name : Option String

/-- Translation of `Tag.decode_value`: `byte_string.encode('hex')`, the raw
bytes rendered as two lowercase hex digits each. -/
def Tag.decode_value (byte_string : List Nat) : String :=
  String.join (byte_string.map (fun b => String.mk [hexChar (b / 16 % 16), hexChar (b % 16)]))

/-- Translation of `Tag.decode` (with `load_value=True` and no preset
header): build the header, then store the value slice
`byte_string[octets:total_octets]` — hex-interpreted for a primitive tag,
verbatim for a constructed tag (`decode_constructed` does not recurse, so
`nested_tags` stays empty). -/
def Tag.decode (byte_string : List Nat) : Option Tag :=
  match Header.decode byte_string with
  | none => none
  | some header =>
    if header.type = 0 then
      some ⟨header,
            TagValue.interpreted (Tag.decode_value
              ((byte_string.drop header.octets).take (header.total_octets - header.octets))),
            [], Option.none⟩
    else if header.type = 1 then
      some ⟨header,
            TagValue.raw ((byte_string.drop header.octets).take
              (header.total_octets - header.octets)),
            [], Option.none⟩
    else
      some ⟨header, TagValue.null, [], Option.none⟩

/-- The `Tag._type_name` tuple. -/
def Tag.type_name : List String := ["primitive", "constructed"]

/-- Translation of the `Tag.get_type` property: the type name, with
"-Indefinite" appended whenever `header.data_length == 0`. -/
def Tag.get_type (self : Tag) : String :=
  let type_name := Tag.type_name.getD self.header.type ("")
  if self.header.data_length = 0 then type_name ++ "-Indefinite" else type_name

/-- Translation of `Tag.add_nested_tag`: append the tag only when the
header marks the receiver constructed (`type == 1`). -/
def Tag.add_nested_tag (self tag : Tag) : Tag :=
  if self.header.type = 1 then
    { self with nested_tags := self.nested_tags ++ [tag] }
  else self

/-- Big-endian base-256 encoding of `n` on `k` octets, used to state the
long-form length claims. -/
def beBytes : Nat → Nat → List Nat
  | 0, _ => []
  | k + 1, n => beBytes k (n / 256) ++ [n % 256]

/-! Helper lemmas -/

/-- A value below 128 has bit 7 clear. -/
lemma land_128_eq_zero {n : Nat} (h : n < 128) : n &&& 128 = 0 := by
  have h7 : n &&& 128 = n &&& 2 ^ 7 := by norm_num
  rw [h7, Nat.and_two_pow, Nat.testBit_lt_two_pow (by norm_num at h ⊢; omega)]
  simp

/-- Adding a value below 128 to 128 sets bit 7 and keeps it set. -/
lemma add_128_land_128 {k : Nat} (h : k < 128) : (128 + k) &&& 128 = 128 := by
  have hor : 128 + k = 128 ||| k := by
    have := Nat.mul_add_lt_is_or (i := 7) (by norm_num at h ⊢; omega : k < 2 ^ 7) 1
    simpa using this
  rw [hor, Nat.and_distrib_right, land_128_eq_zero h]
  simp

/-- tag_type_decode only returns 0 or 1. -/
lemma tag_type_decode_mem {bs : List Nat} {t : Nat}
    (h : tag_type_decode bs = some t) : t = 0 ∨ t = 1 := by
  cases bs with
  | nil => simp [tag_type_decode] at h
  | cons b rest =>
    simp only [tag_type_decode, Option.some.injEq] at h
    split at h <;> omega

/-- A successfully decoded header has type 0 or 1. -/
lemma header_type_mem {bs : List Nat} {h : Header}
    (hd : Header.decode bs = some h) : h.type = 0 ∨ h.type = 1 := by
  unfold Header.decode at hd
  split at hd
  case h_2 => exact absurd hd (by simp)
  case h_1 type number identifier_octets heq1 heq2 =>
    split at hd
    · exact absurd hd (by simp)
    case h_2 first_octet heq3 =>
      split at hd
      · simp only [Option.some.injEq] at hd
        subst hd
        exact tag_type_decode_mem heq1
      · split at hd <;>
        · simp only [Option.some.injEq] at hd
          subst hd
          exact tag_type_decode_mem heq1

/-- A successfully decoded header satisfies octets + data_length = total_octets. -/
lemma header_octets_add_data {bs : List Nat} {h : Header}
    (hd : Header.decode bs = some h) : h.octets + h.data_length = h.total_octets := by
  unfold Header.decode at hd
  split at hd
  case h_2 => exact absurd hd (by simp)
  case h_1 type number identifier_octets heq1 heq2 =>
    split at hd
    · exact absurd hd (by simp)
    case h_2 first_octet heq3 =>
      split at hd
      · simp only [Option.some.injEq] at hd
        subst hd
        simp
      · split at hd <;>
        · simp only [Option.some.injEq] at hd
          subst hd
          simp

/-- If the header decodes, the tag decodes with that header and empty
nested_tags. -/
lemma tag_decode_of_header {bs : List Nat} {h : Header}
    (hd : Header.decode bs = some h) :
    ∃ t, Tag.decode bs = some t ∧ t.header = h ∧ t.nested_tags = [] := by
  by_cases h0 : h.type = 0
  · refine ⟨⟨h, TagValue.interpreted (Tag.decode_value
      ((bs.drop h.octets).take (h.total_octets - h.octets))), [], Option.none⟩, ?_, rfl, rfl⟩
    simp [Tag.decode, hd, h0]
  · by_cases h1 : h.type = 1
    · refine ⟨⟨h, TagValue.raw
        ((bs.drop h.octets).take (h.total_octets - h.octets)), [], Option.none⟩, ?_, rfl, rfl⟩
      simp [Tag.decode, hd, h0, h1]
    · refine ⟨⟨h, TagValue.null, [], Option.none⟩, ?_, rfl, rfl⟩
      simp [Tag.decode, hd, h0, h1]

/-- Inversion: the identifier-octet components of a decoded header. -/
lemma header_decode_fields {bs : List Nat} {h : Header}
    (hd : Header.decode bs = some h) :
    tag_type_decode bs = some h.type ∧
    tag_identifier_decode bs = some (h.number, h.identifier_octets) := by
  unfold Header.decode at hd
  split at hd
  case h_2 => exact absurd hd (by simp)
  case h_1 type number identifier_octets heq1 heq2 =>
    split at hd
    · exact absurd hd (by simp)
    case h_2 first_octet heq3 =>
      split at hd
      · simp only [Option.some.injEq] at hd
        subst hd
        exact ⟨heq1, heq2⟩
      · split at hd <;>
        · simp only [Option.some.injEq] at hd
          subst hd
          exact ⟨heq1, heq2⟩

/-- Inversion: a decoded tag's header is the decoded header of the buffer. -/
lemma tag_decode_header {bs : List Nat} {t : Tag}
    (h : Tag.decode bs = some t) : Header.decode bs = some t.header := by
  unfold Tag.decode at h
  split at h
  · exact absurd h (by simp)
  case h_2 header heq =>
    split at h
    · simp only [Option.some.injEq] at h
      subst h
      exact heq
    · split at h <;>
      · simp only [Option.some.injEq] at h
        subst h
        exact heq

/-! Concrete decoded values used by several witnesses -/

/-- Header decoded from the buffer [0x02, 0x01, 0x05]. -/
def hdr215 : Header := ⟨0, 2, 1, 2, 1, 1, 3, 0⟩

/-- Tag decoded from the buffer [0x02, 0x01, 0x05]. -/
def tag215 : Tag := ⟨hdr215, TagValue.interpreted ("05"), [], Option.none⟩

/-- Tag decoded from the buffer [0x02, 0x01, 0x07]. -/
def tag217 : Tag := ⟨hdr215, TagValue.interpreted ("07"), [], Option.none⟩

/-- Tag decoded from the buffer [0x30, 0x03, 0x02, 0x01, 0x05]. -/
def tag48 : Tag := ⟨⟨1, 16, 1, 2, 1, 3, 5, 0⟩, TagValue.raw [2, 1, 5], [], Option.none⟩

/-- Tag decoded from the buffer [0x05, 0x00]. -/
def tag50 : Tag := ⟨⟨0, 5, 1, 2, 1, 0, 2, 0⟩, TagValue.interpreted (""), [], Option.none⟩

/-- Header decoded from the buffer [0x05, 0x80, 0xAA, 0xBB]. -/
def hdr5ind : Header := ⟨0, 5, 1, 2, 1, 0, 2, 2⟩

/-! Claims -/

/-- C2: the code's long-form tag-number accumulation discards the shift
(the statements `i << shift` and `shift - 7` drop their results), so a
multi-octet base-128 encoding decodes to the bitwise or of its 7-bit
groups: the encoding of 128 yields 1, the encoding of 16383 yields 127,
and the encoding of 16384 yields 1, contradicting the claimed round trip. -/
theorem c2_long_form_round_trip_fails :
    tag_identifier_decode [31, 129, 0] = some (1, 3) ∧
    tag_identifier_decode [31, 255, 127] = some (127, 3) ∧
    tag_identifier_decode [31, 129, 128, 0] = some (1, 4) :=
  ⟨rfl, rfl, rfl⟩

/-- C4 (amended): when the first length octet is exactly 0x80, the decoded
header has length_octets = 1, but data_length is left at 0 and the
remaining buffer bytes after the header are reported in extra_data_length,
not in data_length; total_octets covers only the header. -/
theorem c4_indefinite_length_fields :
    ∀ (bs : List Nat) (h : Header), Header.decode bs = some h →
      bs[h.identifier_octets]? = some 128 →
      h.length_octets = 1 ∧ h.data_length = 0 ∧ h.total_octets = h.octets ∧
      h.extra_data_length = (bs.length : Int) - h.octets := by
  intro bs h hd hoct
  unfold Header.decode at hd
  split at hd
  case h_2 => exact absurd hd (by simp)
  case h_1 type number identifier_octets heq1 heq2 =>
    split at hd
    · exact absurd hd (by simp)
    case h_2 first_octet heq3 =>
      split at hd
      case isTrue h128 =>
        simp only [Option.some.injEq] at hd
        subst hd
        refine ⟨rfl, rfl, rfl, ?_⟩
        push_cast
        ring
      case isFalse h128 =>
        exfalso
        split at hd <;>
        · simp only [Option.some.injEq] at hd
          subst hd
          dsimp only at hoct
          rw [heq3] at hoct
          injection hoct with hoct'
          exact h128 hoct'

/-- C4 counterexample: on the buffer [0x05, 0x80, 0xAA, 0xBB] the claim
says valueByteCount equals the 2 remaining bytes after the header, but the
code reports data_length 0 (the remainder goes to extra_data_length, and
no isIndefiniteLength field exists on the header). -/
theorem c4_counterexample :
    (Header.decode [5, 128, 170, 187]).map Header.data_length = some 0 ∧
    (Header.decode [5, 128, 170, 187]).map Header.data_length ≠
      some (([5, 128, 170, 187] : List Nat).length - 2) :=
  ⟨rfl, by decide⟩

/-- C4 witness: the amended statement evaluated on [0x05, 0x80, 0xAA, 0xBB]. -/
theorem c4_witness :
    hdr5ind.length_octets = 1 ∧ hdr5ind.data_length = 0 ∧
    hdr5ind.total_octets = hdr5ind.octets ∧
    hdr5ind.extra_data_length =
      ((([5, 128, 170, 187] : List Nat).length : Int)) - hdr5ind.octets :=
  c4_indefinite_length_fields [5, 128, 170, 187] hdr5ind rfl rfl

/-- C6: the buffer [0x02, 0x01, 0x05] decodes to a primitive leaf with tag
number 2, one value byte, raw value bytes [0x05], and default hex
interpreter output "05". -/
theorem c6_primitive_leaf_example :
    Tag.decode [2, 1, 5] = some tag215 ∧
    hdr215.type = 0 ∧ hdr215.number = 2 ∧ hdr215.data_length = 1 ∧
    (([2, 1, 5] : List Nat).drop hdr215.octets).take
      (hdr215.total_octets - hdr215.octets) = [5] ∧
    Tag.decode_value [5] = "05" ∧ tag215.nested_tags = [] :=
  ⟨rfl, rfl, rfl, rfl, rfl, rfl, rfl⟩

/-- C7: the decoded header's constructed flag is exactly bit 6 (mask 0x20)
of the first identifier octet; identifier octet 0x02 gives type 0
(primitive) and 0x30 gives type 1 (constructed). -/
theorem c7_constructed_flag_is_bit6 :
    (∀ (b : Nat) (rest : List Nat) (h : Header), Header.decode (b :: rest) = some h →
      h.type = if b &&& 32 = 32 then 1 else 0) ∧
    (Header.decode [2, 1, 5]).map Header.type = some 0 ∧
    (Header.decode [48, 3, 2, 1, 5]).map Header.type = some 1 := by
  refine ⟨?_, rfl, rfl⟩
  intro b rest h hd
  have h1 := (header_decode_fields hd).1
  simp only [tag_type_decode, Option.some.injEq] at h1
  exact h1.symm

/-- C7 witness: the general statement evaluated on the buffer
[0x02, 0x01, 0x05]. -/
theorem c7_witness : hdr215.type = if 2 &&& 32 = 32 then 1 else 0 :=
  c7_constructed_flag_is_bit6.1 2 [1, 5] hdr215 rfl

/-- C8 (amended): every successfully decoded header satisfies
octets + data_length = total_octets and has a non-negative tag number;
the claimed bound total_octets ≤ buffer length does not hold in general. -/
theorem c8_invariants_amended :
    ∀ (bs : List Nat) (h : Header), Header.decode bs = some h →
      h.octets + h.data_length = h.total_octets ∧ 0 ≤ h.number :=
  fun _ _ hd => ⟨header_octets_add_data hd, Nat.zero_le _⟩

/-- C8 counterexample: [0x02, 0x05] decodes successfully to a header with
total_octets = 7 although the buffer is only 2 bytes long, violating the
claimed invariant total_octets ≤ len(buffer). -/
theorem c8_counterexample :
    (Header.decode [2, 5]).map Header.total_octets = some 7 ∧
    ¬ (7 ≤ ([2, 5] : List Nat).length) :=
  ⟨rfl, by decide⟩

/-- C8 witness: the amended invariant evaluated on [0x02, 0x01, 0x05]. -/
theorem c8_witness :
    hdr215.octets + hdr215.data_length = hdr215.total_octets ∧ 0 ≤ hdr215.number :=
  c8_invariants_amended [2, 1, 5] hdr215 rfl

/-- C9: get_type appends "-Indefinite" exactly when header.data_length is
0; in particular the definite zero-length buffer [0x05, 0x00] is reported
as "primitive-Indefinite" although its length octet is not 0x80. -/
theorem c9_get_type_indefinite_suffix :
    (∀ (bs : List Nat) (t : Tag), Tag.decode bs = some t →
      ("-Indefinite".data.isSuffixOf t.get_type.data = true ↔ t.header.data_length = 0)) ∧
    (Tag.decode [5, 0]).map Tag.get_type = some ("primitive-Indefinite") := by
  constructor
  · intro bs t htd
    have hh := tag_decode_header htd
    unfold Tag.get_type
    rcases header_type_mem hh with h0 | h1
    · rw [h0]
      by_cases hdl : t.header.data_length = 0
      · rw [if_pos hdl]
        exact iff_of_true (by decide) hdl
      · rw [if_neg hdl]
        exact iff_of_false (by decide) hdl
    · rw [h1]
      by_cases hdl : t.header.data_length = 0
      · rw [if_pos hdl]
        exact iff_of_true (by decide) hdl
      · rw [if_neg hdl]
        exact iff_of_false (by decide) hdl
  · rfl

/-- C9 witness: the suffix criterion evaluated on the decoded tag of
[0x05, 0x00]. -/
theorem c9_witness :
    "-Indefinite".data.isSuffixOf tag50.get_type.data = true ↔
      tag50.header.data_length = 0 :=
  c9_get_type_indefinite_suffix.1 [5, 0] tag50 rfl

/-- C10: add_nested_tag leaves nested_tags unchanged on a primitive tag
(header.type = 0) and appends the given tag at the end on a constructed
tag (header.type = 1). -/
theorem c10_add_nested_tag_effect :
    ∀ (t u : Tag),
      (t.header.type = 0 → (t.add_nested_tag u).nested_tags = t.nested_tags) ∧
      (t.header.type = 1 → (t.add_nested_tag u).nested_tags = t.nested_tags ++ [u]) := by
  intro t u
  constructor
  · intro h0
    simp [Tag.add_nested_tag, h0]
  · intro h1
    simp [Tag.add_nested_tag, h1]

/-- C10 witness: add_nested_tag evaluated on a concrete primitive tag and
a concrete constructed tag. -/
theorem c10_witness :
    (tag215.add_nested_tag tag48).nested_tags = tag215.nested_tags ∧
    (tag48.add_nested_tag tag215).nested_tags = tag48.nested_tags ++ [tag215] :=
  ⟨(c10_add_nested_tag_effect tag215 tag48).1 rfl,
   (c10_add_nested_tag_effect tag48 tag215).2 rfl⟩

/-! Long-form length round trip (C5) -/

/-- beBytes always produces exactly k octets. -/
lemma beBytes_length (k : Nat) : ∀ n, (beBytes k n).length = k := by
  induction k with
  | zero => intro n; rfl
  | succ k ih => intro n; simp [beBytes, ih]

/-- beBytes produces octet values below 256. -/
lemma beBytes_lt (k : Nat) : ∀ n, ∀ b ∈ beBytes k n, b < 256 := by
  induction k with
  | zero => intro n b hb; simp [beBytes] at hb
  | succ k ih =>
    intro n b hb
    simp only [beBytes, List.mem_append, List.mem_singleton] at hb
    rcases hb with hb | hb
    · exact ih _ b hb
    · subst hb
      exact Nat.mod_lt _ (by norm_num)

/-- The or-accumulating loop computes the base-256 value of a byte list. -/
lemma long_format_go_spec (bs : List Nat) :
    ∀ a : Nat, (∀ b ∈ bs, b < 256) →
      long_format_length_go bs (8 * (bs.length - 1)) (a * 2 ^ (8 * bs.length)) =
        bs.foldl (fun acc b => acc * 256 + b) a := by
  induction bs with
  | nil =>
    intro a _
    simp [long_format_length_go]
  | cons b rest ih =>
    intro a hlt
    have hb : b < 256 := hlt b (List.mem_cons_self b rest)
    have hpos : 0 < 2 ^ (8 * rest.length) := Nat.pos_pow_of_pos _ (by norm_num)
    have key : a * 2 ^ (8 * (b :: rest).length) ||| b <<< (8 * rest.length) =
        (a * 256 + b) * 2 ^ (8 * rest.length) := by
      have hblt : b * 2 ^ (8 * rest.length) < 2 ^ (8 * rest.length + 8) := by
        calc b * 2 ^ (8 * rest.length) < 256 * 2 ^ (8 * rest.length) :=
              (Nat.mul_lt_mul_right hpos).mpr hb
          _ = 2 ^ (8 * rest.length + 8) := by rw [pow_add]; ring
      have hor := Nat.mul_add_lt_is_or hblt a
      have hlen : 8 * (b :: rest).length = 8 * rest.length + 8 := by
        simp [List.length_cons]; ring
      rw [Nat.shiftLeft_eq, hlen]
      calc a * 2 ^ (8 * rest.length + 8) ||| b * 2 ^ (8 * rest.length)
          = 2 ^ (8 * rest.length + 8) * a ||| b * 2 ^ (8 * rest.length) := by
            rw [Nat.mul_comm]
        _ = 2 ^ (8 * rest.length + 8) * a + b * 2 ^ (8 * rest.length) := hor.symm
        _ = (a * 256 + b) * 2 ^ (8 * rest.length) := by rw [pow_add]; ring
    have hshift : 8 * ((b :: rest).length - 1) = 8 * rest.length := by
      simp [List.length_cons]
    simp only [long_format_length_go]
    rw [hshift, key]
    have hsub : 8 * rest.length - 8 = 8 * (rest.length - 1) := by omega
    rw [hsub, List.foldl_cons]
    exact ih (a * 256 + b) (fun x hx => hlt x (List.mem_cons_of_mem _ hx))

/-- long_format_length_decode computes the base-256 value of a byte list. -/
lemma long_format_length_decode_spec (bs : List Nat) (h : ∀ b ∈ bs, b < 256) :
    long_format_length_decode bs = bs.foldl (fun acc b => acc * 256 + b) 0 := by
  have := long_format_go_spec bs 0 h
  simpa [long_format_length_decode] using this

/-- Base-256 evaluation of the big-endian encoding recovers the value. -/
lemma foldl_beBytes (k : Nat) : ∀ n a : Nat, n < 256 ^ k →
    (beBytes k n).foldl (fun acc b => acc * 256 + b) a = a * 256 ^ k + n := by
  induction k with
  | zero =>
    intro n a hn
    have h0 : n = 0 := by
      simpa using hn
    subst h0
    simp [beBytes]
  | succ k ih =>
    intro n a hn
    have hdiv : n / 256 < 256 ^ k := by
      rw [Nat.div_lt_iff_lt_mul (by norm_num)]
      rw [← pow_succ]
      exact hn
    rw [beBytes, List.foldl_append, ih (n / 256) a hdiv]
    simp only [List.foldl_cons, List.foldl_nil]
    rw [pow_succ, ← Nat.mul_assoc]
    generalize a * 256 ^ k = Q
    omega

/-- Round trip: decoding the k-octet big-endian encoding of n yields n. -/
lemma long_format_beBytes {k n : Nat} (hn : n < 256 ^ k) :
    long_format_length_decode (beBytes k n) = n := by
  rw [long_format_length_decode_spec _ (beBytes_lt k n)]
  simpa using foldl_beBytes k n 0 hn

/-- Full header decode of a long-form length encoding behind the
identifier octet 0x02. -/
lemma header_decode_long_form {k n : Nat} (hk : 0 < k) (hk2 : k < 128)
    (hn : n < 256 ^ k) :
    Header.decode (2 :: (128 + k) :: beBytes k n) =
      some ⟨0, 2, 1, 2 + k, 1 + k, n, 2 + k + n, 0⟩ := by
  have h1 : tag_type_decode (2 :: (128 + k) :: beBytes k n) = some 0 := rfl
  have h2 : tag_identifier_decode (2 :: (128 + k) :: beBytes k n) = some (2, 1) := rfl
  have h3 : (2 :: (128 + k) :: beBytes k n)[1]? = some (128 + k) := by simp
  have hne : ¬(128 + k = 128) := by omega
  have hland := add_128_land_128 hk2
  have hkk : 128 + k - 128 = k := by omega
  have htake : ((2 :: (128 + k) :: beBytes k n).drop (1 + 1)).take k = beBytes k n := by
    show (beBytes k n).take k = beBytes k n
    exact List.take_of_length_le (beBytes_length k n).le
  simp only [Header.decode, h1, h2, h3, if_neg hne, hkk, if_pos hland, htake,
    long_format_beBytes hn, Option.some.injEq, Header.mk.injEq]
  exact ⟨trivial, trivial, trivial, by omega, trivial, trivial, by omega, trivial⟩

/-- C5: for every long-form length with k in [1,4] octets and n below
2^(8k), decoding the header whose length octets are 0x80+k followed by the
big-endian k-octet encoding of n yields data_length exactly n and
length_octets 1+k. -/
theorem c5_long_form_length_round_trip :
    ∀ k n : Nat, 1 ≤ k → k ≤ 4 → n < 2 ^ (8 * k) →
      ∃ h, Header.decode ([2, 128 + k] ++ beBytes k n) = some h ∧
        h.data_length = n ∧ h.length_octets = 1 + k := by
  intro k n h1 h4 hn
  have hn' : n < 256 ^ k := by
    have h28 : (2 : Nat) ^ (8 * k) = 256 ^ k := by
      rw [pow_mul]
      norm_num
    rw [h28] at hn
    exact hn
  exact ⟨⟨0, 2, 1, 2 + k, 1 + k, n, 2 + k + n, 0⟩,
    header_decode_long_form (by omega) (by omega) hn', rfl, rfl⟩

/-- C5 witness: the round trip evaluated at k = 2 octets, n = 300. -/
theorem c5_witness :
    ∃ h, Header.decode ([2, 128 + 2] ++ beBytes 2 300) = some h ∧
      h.data_length = 300 ∧ h.length_octets = 1 + 2 :=
  c5_long_form_length_round_trip 2 300 (by norm_num) (by norm_num) (by norm_num)

/-! Constructed tags (C1) -/

/-- Decoding a short-form constructed tag 0x30 whose declared length
matches its value span: the value is stored verbatim and nested_tags stays
empty. -/
lemma tag_decode_seq (v : List Nat) (hlen : v.length < 128) :
    Tag.decode (48 :: v.length :: v) =
      some ⟨⟨1, 16, 1, 2, 1, v.length, 2 + v.length, 0⟩, TagValue.raw v, [], Option.none⟩ := by
  have h1 : tag_type_decode (48 :: v.length :: v) = some 1 := rfl
  have h2 : tag_identifier_decode (48 :: v.length :: v) = some (16, 1) := rfl
  have h3 : (48 :: v.length :: v)[1]? = some v.length := by simp
  have hne : ¬(v.length = 128) := by omega
  have hland : ¬(v.length &&& 128 = 128) := by
    rw [land_128_eq_zero hlen]
    omega
  have hh : Header.decode (48 :: v.length :: v) =
      some ⟨1, 16, 1, 2, 1, v.length, 2 + v.length, 0⟩ := by
    simp only [Header.decode, h1, h2, h3, if_neg hne, if_neg hland,
      Option.some.injEq, Header.mk.injEq, List.length_cons]
    refine ⟨trivial, trivial, trivial, trivial, trivial, trivial, trivial, ?_⟩
    push_cast
    ring
  have hc : 2 + v.length - 2 = v.length := by omega
  simp [Tag.decode, hh, hc]

/-- C1 (amended): decoding a constructed tag whose value span is the
concatenation of two complete child TLV encodings succeeds, but the
decoder does not build children: nested_tags is empty and the value holds
the concatenation verbatim. The two children, decoded separately, have
total_octets summing to the parent's data_length, and they can be attached
in encounter order only externally via add_nested_tag. -/
theorem c1_constructed_children_not_built :
    ∀ (b1 b2 : List Nat) (t1 t2 : Tag),
      Tag.decode b1 = some t1 → Tag.decode b2 = some t2 →
      t1.header.total_octets = b1.length → t2.header.total_octets = b2.length →
      b1.length + b2.length < 128 →
      ∃ p, Tag.decode (48 :: (b1.length + b2.length) :: (b1 ++ b2)) = some p ∧
        p.nested_tags = [] ∧
        p.value = TagValue.raw (b1 ++ b2) ∧
        t1.header.total_octets + t2.header.total_octets = p.header.data_length ∧
        ((p.add_nested_tag t1).add_nested_tag t2).nested_tags = [t1, t2] := by
  intro b1 b2 t1 t2 hd1 hd2 ht1 ht2 hlen
  have hl : (b1 ++ b2).length = b1.length + b2.length := List.length_append b1 b2
  have hdec := tag_decode_seq (b1 ++ b2) (by rw [hl]; exact hlen)
  rw [hl] at hdec
  refine ⟨_, hdec, rfl, rfl, ?_, ?_⟩
  · rw [ht1, ht2]
  · simp [Tag.add_nested_tag]

/-- C1 counterexample: the buffer [0x30, 0x06, 0x02, 0x01, 0x05, 0x02,
0x01, 0x07] is a constructed tag whose value is two complete child
encodings, yet the decoded node has zero children, not the claimed two. -/
theorem c1_counterexample :
    (Tag.decode [48, 6, 2, 1, 5, 2, 1, 7]).map (fun t => t.nested_tags.length) = some 0 ∧
    (Tag.decode [48, 6, 2, 1, 5, 2, 1, 7]).map (fun t => t.nested_tags.length) ≠ some 2 :=
  ⟨rfl, by decide⟩

/-- C1 witness: the amended statement evaluated on the children
[0x02, 0x01, 0x05] and [0x02, 0x01, 0x07]. -/
theorem c1_witness :
    ∃ p, Tag.decode
        (48 :: (([2, 1, 5] : List Nat).length + ([2, 1, 7] : List Nat).length) ::
          ([2, 1, 5] ++ [2, 1, 7])) = some p ∧
      p.nested_tags = [] ∧
      p.value = TagValue.raw ([2, 1, 5] ++ [2, 1, 7]) ∧
      tag215.header.total_octets + tag217.header.total_octets = p.header.data_length ∧
      ((p.add_nested_tag tag215).add_nested_tag tag217).nested_tags = [tag215, tag217] :=
  c1_constructed_children_not_built [2, 1, 5] [2, 1, 7] tag215 tag217 rfl rfl rfl rfl
    (by decide)

/-! Prefix stability of header decoding (C3) -/

/-- lvq_values only depends on the octets it actually consumes. -/
lemma lvq_values_take : ∀ (bs vs : List Nat) (m : Nat),
    lvq_values bs = some vs → vs.length ≤ m → lvq_values (bs.take m) = some vs := by
  intro bs
  induction bs with
  | nil =>
    intro vs m h _
    simp [lvq_values] at h
  | cons b rest ih =>
    intro vs m h hm
    unfold lvq_values at h
    by_cases hb : b &&& 128 = 0
    · rw [if_pos hb] at h
      simp only [Option.some.injEq] at h
      subst h
      cases m with
      | zero => simp at hm
      | succ m' =>
        rw [List.take_succ_cons]
        unfold lvq_values
        rw [if_pos hb]
    · rw [if_neg hb] at h
      rcases hrest : lvq_values rest with _ | vs'
      · rw [hrest] at h
        simp at h
      · rw [hrest] at h
        simp only [Option.map_some', Option.some.injEq] at h
        subst h
        cases m with
        | zero => simp at hm
        | succ m' =>
          rw [List.take_succ_cons]
          unfold lvq_values
          rw [if_neg hb, ih vs' m' hrest (by simp at hm; omega)]
          rfl

/-- lvq_decode only depends on the octets it actually consumes. -/
lemma lvq_decode_take {bs : List Nat} {n sz m : Nat}
    (h : lvq_decode bs = some (n, sz)) (hm : sz ≤ m) :
    lvq_decode (bs.take m) = some (n, sz) := by
  unfold lvq_decode at h ⊢
  rcases hv : lvq_values bs with _ | vs
  · rw [hv] at h
    simp at h
  · rw [hv] at h
    simp only [Option.map_some', Option.some.injEq, Prod.mk.injEq] at h
    obtain ⟨hn, hsz⟩ := h
    rw [lvq_values_take bs vs m hv (by omega)]
    simp [hn, hsz]

/-- tag_identifier_decode only depends on the octets it actually
consumes. -/
lemma tag_identifier_take {bs : List Nat} {n io m : Nat}
    (h : tag_identifier_decode bs = some (n, io)) (hm : io ≤ m) :
    tag_identifier_decode (bs.take m) = some (n, io) := by
  cases bs with
  | nil => simp [tag_identifier_decode] at h
  | cons b rest =>
    simp only [tag_identifier_decode] at h
    by_cases hb : b &&& 31 = 31
    · rw [if_pos hb] at h
      rcases hr : lvq_decode rest with _ | p
      · rw [hr] at h
        simp at h
      · obtain ⟨n', sz⟩ := p
        rw [hr] at h
        simp only [Option.map_some', Option.some.injEq, Prod.mk.injEq] at h
        obtain ⟨hn, hio⟩ := h
        cases m with
        | zero => omega
        | succ m' =>
          rw [List.take_succ_cons]
          simp only [tag_identifier_decode]
          rw [if_pos hb, lvq_decode_take hr (by omega)]
          simp [hn, hio]
    · rw [if_neg hb] at h
      simp only [Option.some.injEq, Prod.mk.injEq] at h
      obtain ⟨hn, hio⟩ := h
      cases m with
      | zero => omega
      | succ m' =>
        rw [List.take_succ_cons]
        simp only [tag_identifier_decode]
        rw [if_neg hb]
        simp [hn, hio]

set_option maxRecDepth 4096 in
/-- Header decoding only reads the header octets: taking any m bytes with
octets ≤ m ≤ length leaves every field except extra_data_length
unchanged. -/
lemma header_decode_take {bs : List Nat} {h : Header} {m : Nat}
    (hd : Header.decode bs = some h) (hm : h.octets ≤ m) :
    ∃ h', Header.decode (bs.take m) = some h' ∧
      h'.type = h.type ∧ h'.number = h.number ∧
      h'.identifier_octets = h.identifier_octets ∧ h'.octets = h.octets ∧
      h'.length_octets = h.length_octets ∧ h'.data_length = h.data_length ∧
      h'.total_octets = h.total_octets := by
  unfold Header.decode at hd
  split at hd
  case h_2 => exact absurd hd (by simp)
  case h_1 type number identifier_octets heq1 heq2 =>
    split at hd
    · exact absurd hd (by simp)
    case h_2 first_octet heq3 =>
      have htype' : ∀ m', 1 ≤ m' → tag_type_decode (bs.take m') = some type := by
        intro m' hm'
        cases bs with
        | nil => simp [tag_type_decode] at heq1
        | cons b rest =>
          cases m' with
          | zero => omega
          | succ m'' =>
            rw [List.take_succ_cons]
            simpa [tag_type_decode] using heq1
      split at hd
      case isTrue h128 =>
        simp only [Option.some.injEq] at hd
        subst hd
        simp only at hm ⊢
        have hident' := tag_identifier_take heq2 (m := m) (by omega)
        have hget' : (bs.take m)[identifier_octets]? = some first_octet := by
          rw [List.getElem?_take_of_lt (by omega)]
          exact heq3
        refine ⟨⟨type, number, identifier_octets, identifier_octets + 1, 1, 0,
          identifier_octets + 1, ((bs.take m).length : Int) - (identifier_octets + 1)⟩,
          ?_, rfl, rfl, rfl, rfl, rfl, rfl, rfl⟩
        simp only [Header.decode, htype' m (by omega), hident', hget', if_pos h128]
      case isFalse h128 =>
        split at hd
        case isTrue hlong =>
          simp only [Option.some.injEq] at hd
          subst hd
          simp only at hm ⊢
          have hident' := tag_identifier_take heq2 (m := m) (by omega)
          have hget' : (bs.take m)[identifier_octets]? = some first_octet := by
            rw [List.getElem?_take_of_lt (by omega)]
            exact heq3
          have hslice : ((bs.take m).drop (identifier_octets + 1)).take (first_octet - 128) =
              (bs.drop (identifier_octets + 1)).take (first_octet - 128) := by
            have e1 : (bs.take m).drop (identifier_octets + 1) =
                (bs.drop (identifier_octets + 1)).take (m - (identifier_octets + 1)) := by
              rw [List.take_drop,
                show identifier_octets + 1 + (m - (identifier_octets + 1)) = m from by omega]
            rw [e1, List.take_take, Nat.min_eq_left (by omega)]
          refine ⟨⟨type, number, identifier_octets,
            identifier_octets + (1 + (first_octet - 128)), 1 + (first_octet - 128),
            long_format_length_decode
              ((bs.drop (identifier_octets + 1)).take (first_octet - 128)),
            identifier_octets + (1 + (first_octet - 128)) +
              long_format_length_decode
                ((bs.drop (identifier_octets + 1)).take (first_octet - 128)), 0⟩,
            ?_, rfl, rfl, rfl, rfl, rfl, rfl, rfl⟩
          simp only [Header.decode, htype' m (by omega), hident', hget', if_neg h128,
            if_pos hlong, hslice]
        case isFalse hshort =>
          simp only [Option.some.injEq] at hd
          subst hd
          simp only at hm ⊢
          have hident' := tag_identifier_take heq2 (m := m) (by omega)
          have hget' : (bs.take m)[identifier_octets]? = some first_octet := by
            rw [List.getElem?_take_of_lt (by omega)]
            exact heq3
          refine ⟨⟨type, number, identifier_octets, identifier_octets + 1, 1, first_octet,
            identifier_octets + 1 + first_octet,
            ((bs.take m).length : Int) - (identifier_octets + 1) - first_octet⟩,
            ?_, rfl, rfl, rfl, rfl, rfl, rfl, rfl⟩
          simp only [Header.decode, htype' m (by omega), hident', hget', if_neg h128,
            if_neg hshort]

/-- C3 (amended): a buffer exactly total_octets long decodes successfully
(the hypothesis), and with the last value byte removed decoding still
succeeds — no TruncatedBufferError exists — with the same declared
data_length and total_octets; the tag decode also succeeds, silently
truncating the value. -/
theorem c3_truncated_buffer_still_decodes :
    ∀ (bs : List Nat) (h : Header), Header.decode bs = some h →
      h.total_octets = bs.length → 1 ≤ h.data_length →
      ∃ h', Header.decode (bs.take (bs.length - 1)) = some h' ∧
        h'.data_length = h.data_length ∧ h'.total_octets = h.total_octets ∧
        ∃ t, Tag.decode (bs.take (bs.length - 1)) = some t ∧ t.header = h' := by
  intro bs h hd htot hdl
  have hoct := header_octets_add_data hd
  obtain ⟨h', hdec', _, _, _, _, _, hdlen, htotal⟩ :=
    header_decode_take hd (m := bs.length - 1) (by omega)
  obtain ⟨t, htag, hth, _⟩ := tag_decode_of_header hdec'
  exact ⟨h', hdec', hdlen, htotal, t, htag, hth⟩

/-- C3 counterexample: removing the single value byte from the unit
[0x02, 0x01, 0x05] leaves [0x02, 0x01], which the claim says fails with
TruncatedBufferError; instead it decodes successfully — the header keeps
data_length 1 with extra_data_length -1, and the value is silently
truncated to the empty string. -/
theorem c3_counterexample :
    Tag.decode [2, 1] =
      some ⟨⟨0, 2, 1, 2, 1, 1, 3, -1⟩, TagValue.interpreted (""), [], Option.none⟩ :=
  rfl

/-- C3 witness: the amended statement evaluated on [0x02, 0x01, 0x05]. -/
theorem c3_witness :
    ∃ h', Header.decode (([2, 1, 5] : List Nat).take (([2, 1, 5] : List Nat).length - 1)) =
        some h' ∧
      h'.data_length = hdr215.data_length ∧ h'.total_octets = hdr215.total_octets ∧
      ∃ t, Tag.decode (([2, 1, 5] : List Nat).take (([2, 1, 5] : List Nat).length - 1)) =
          some t ∧ t.header = h' :=
  c3_truncated_buffer_still_decodes [2, 1, 5] hdr215 rfl rfl (by decide)

end Stockholm
